import Mathlib

/-!
Verification of the `assertions` test-utility library (`assertions.go`).

The Go source is shallowly embedded:
* Go maps become association lists with pairwise-distinct keys (`nodupKeys`);
  a read of a missing key yields the element type's zero value, which is
  passed explicitly as `zero`.
* Go slices become `List`s.
* `reflect.DeepEqual` is kept abstract as a parameter `eq : E → E → Bool`
  in the generic functions; for claims that need its concrete behaviour a
  model `GoVal` of Go runtime values with `deepEqual` is provided, in which
  a floating-point NaN is never equal to itself.
* A Go function that can panic with an index-out-of-range error is embedded
  in the `Except Unit` monad: `.error ()` marks the panic.
* The test handle `testing.TB` is only ever used to report the outcome, so
  an assertion is embedded as a function returning a `MatchOutcome`
  (pass, or one of the two distinct failure messages).
-/

namespace Assertions

/-- Model of Go runtime values for `reflect.DeepEqual`: booleans, integers,
strings, floats (NaN kept as a separate constructor since it compares
unequal to everything, itself included), and composite values (slices). -/
inductive GoVal where
  | vbool (b : Bool)
  | vint (n : Int)
  | vstr (s : String)
  | vfloat (q : Rat)
  | vnan
  | vslice (xs : List GoVal)

mutual

/-- Models the Go `reflect.DeepEqual` primitive as documented: recursive
structural equality, values of different dynamic type are never equal, and
a floating-point NaN is not equal to anything, not even itself. -/
def deepEqual : GoVal → GoVal → Bool
  | .vbool a, .vbool b => a == b
  | .vint a, .vint b => a == b
  | .vstr a, .vstr b => a == b
  | .vfloat a, .vfloat b => a == b
  | .vslice xs, .vslice ys => deepEqualList xs ys
  | _, _ => false

/-- Element-wise `deepEqual` of two Go slices: equal lengths and equal
corresponding elements. -/
def deepEqualList : List GoVal → List GoVal → Bool
  | [], [] => true
  | x :: xs, y :: ys => deepEqual x y && deepEqualList xs ys
  | _, _ => false

end

mutual

/-- Whether a Go value is or contains a floating-point NaN. -/
def containsNaN : GoVal → Bool
  | .vnan => true
  | .vslice xs => containsNaNList xs
  | _ => false

/-- Whether some element of a Go slice contains a NaN. -/
def containsNaNList : List GoVal → Bool
  | [] => false
  | x :: xs => containsNaN x || containsNaNList xs

end

/-- Outcome of one of the collection-matching assertions, as observed
through the test handle: pass, the length-mismatch failure message of
`SlicesMatch` (which reports both lengths), or the non-matching-elements
failure message (which reports both residues). -/
inductive MatchOutcome (α : Type u) where
  | pass
  | lengthMismatch (la lb : Nat)
  | elementsMismatch (ra rb : α)

/-- `Equal` asserts deep equality of two values; it passes exactly when
`reflect.DeepEqual` holds. -/
def Equal (expected input : GoVal) : Bool :=
  deepEqual expected input

section Maps

variable {K : Type} {E : Type} [DecidableEq K]

/-- Go map read `m[k]` restricted to present keys: the value at the key,
or `none` when the key is absent. -/
def lookupAL (k : K) : List (K × E) → Option E
  | [] => none
  | (k', v) :: rest => if k' = k then some v else lookupAL k rest

/-- Go map write `m[k] = v` on an association list: overwrite the entry if
the key is present, otherwise append it. -/
def insertAL (k : K) (v : E) : List (K × E) → List (K × E)
  | [] => [(k, v)]
  | (k', v') :: rest => if k' = k then (k, v) :: rest else (k', v') :: insertAL k v rest

/-- An association list models a Go map only when its keys are pairwise
distinct. -/
def nodupKeys (l : List (K × E)) : Prop :=
  (l.map Prod.fst).Nodup

/-- Body of the first loop of `nonMatchingMaps`, for one entry `(ak, av)`
of `a`: `bv, ok := b[ak]`; if `!ok` then `aout[ak] = av`; if
`!DeepEqual(av, bv)` then `aout[ak] = av` and `bout[ak] = bv` (where `bv`
is the zero value when the key is absent). -/
def mapStep1 (eq : E → E → Bool) (zero : E) (b : List (K × E))
    (acc : List (K × E) × List (K × E)) (p : K × E) : List (K × E) × List (K × E) :=
  let bvok := lookupAL p.1 b
  let bv := bvok.getD zero
  let aout := if bvok.isNone then insertAL p.1 p.2 acc.1 else acc.1
  if eq p.2 bv then (aout, acc.2) else (insertAL p.1 p.2 aout, insertAL p.1 bv acc.2)

/-- Body of the second loop of `nonMatchingMaps`, for one entry `(bk, bv)`
of `b`: keys already present in `a` were compared by the first loop, so
only keys absent from `a` are added to `bout`. -/
def mapStep2 (a : List (K × E)) (bout : List (K × E)) (q : K × E) : List (K × E) :=
  if (lookupAL q.1 a).isNone then insertAL q.1 q.2 bout else bout

/-- `nonMatchingMaps` from the source: first loop walks `a` comparing each
entry against `b`'s value at that key (the zero value when absent), second
loop adds to `bout` the entries of `b` whose key is absent from `a`. -/
def nonMatchingMaps (eq : E → E → Bool) (zero : E) (a b : List (K × E)) :
    List (K × E) × List (K × E) :=
  let acc := a.foldl (mapStep1 eq zero b) ([], [])
  (acc.1, b.foldl (mapStep2 a) acc.2)

/-- `MapsMatch` asserts that two maps have the same members: it runs
`nonMatchingMaps` unconditionally and fails with the non-matching-elements
message when either residue is non-empty. -/
def MapsMatch (eq : E → E → Bool) (zero : E) (a b : List (K × E)) :
    MatchOutcome (List (K × E)) :=
  let res := nonMatchingMaps eq zero a b
  if res.1.length > 0 ∨ res.2.length > 0 then .elementsMismatch res.1 res.2 else .pass

end Maps

section Slices

variable {E : Type}

/-- Inner scan loop of `nonMatchingSlices`: `for i, elementB := range b`,
starting at index `i` into the `visited` marker array; `visited[i]` is a
real index access, so a missing index is an index-out-of-range panic
(`.error ()`). On the first unclaimed deep-equal element it marks the
index claimed and stops. -/
def scanClaim (p : E → Bool) : List E → Nat → List Bool → Except Unit (Bool × List Bool)
  | [], _, visited => .ok (false, visited)
  | y :: rest, i, visited =>
    match visited.get? i with
    | none => .error ()
    | some c => if !c && p y then .ok (true, visited.set i true) else scanClaim p rest (i + 1) visited

/-- One pass of `nonMatchingSlices`: for each element `x` of `outer` (in
order), scan `scan` for the first unclaimed element satisfying `f x`; if
none is found, `x` joins the residue. The `visited` markers thread through
the whole pass. -/
def passResidues (f : E → E → Bool) : List E → List E → List Bool →
    Except Unit (List E × List Bool)
  | [], _, visited => .ok ([], visited)
  | x :: xs, scan, visited => do
    let (found, visited') ← scanClaim (fun y => f x y) scan 0 visited
    let (res, visited'') ← passResidues f xs scan visited'
    .ok (if found then res else x :: res, visited'')

/-- `nonMatchingSlices` from the source: one `visited` marker array of
length `len a`, a first pass finding `a`'s unmatched elements against `b`,
`clear(visited)`, and a second, independent pass finding `b`'s unmatched
elements against `a` (comparisons written `DeepEqual(elementA, elementB)`
in both passes). -/
def nonMatchingSlices (eq : E → E → Bool) (a b : List E) :
    Except Unit (List E × List E) := do
  let visited := List.replicate a.length false
  let (ra, v1) ← passResidues (fun x y => eq x y) a b visited
  let cleared := v1.map (fun _ => false)
  let (rb, _) ← passResidues (fun x y => eq y x) b a cleared
  .ok (ra, rb)

/-- `SlicesMatch` with the element differ abstracted, to express that the
length-mismatch path does not depend on (never invokes) the differ:
lengths are compared first and a mismatch fails fast with a message
carrying both lengths; otherwise the differ runs and any non-empty residue
fails with the non-matching-elements message. -/
def SlicesMatchWith (differ : List E → List E → Except Unit (List E × List E))
    (expected input : List E) : Except Unit (MatchOutcome (List E)) :=
  if expected.length ≠ input.length then
    .ok (.lengthMismatch expected.length input.length)
  else do
    let (ra, rb) ← differ expected input
    .ok (if ra.length > 0 ∨ rb.length > 0 then .elementsMismatch ra rb else .pass)

/-- `SlicesMatch` from the source: length check first, then
`nonMatchingSlices`. -/
def SlicesMatch (eq : E → E → Bool) (expected input : List E) :
    Except Unit (MatchOutcome (List E)) :=
  SlicesMatchWith (nonMatchingSlices eq) expected input

/-- Pool view of the inner scan loop: the scanned slice and its `visited`
markers zipped together. Returns the pool with the first unclaimed
matching element claimed, or `none` when no unclaimed element matches. -/
def claimFirst (p : E → Bool) : List (E × Bool) → Option (List (E × Bool))
  | [] => none
  | (y, c) :: rest =>
    if !c && p y then some ((y, true) :: rest)
    else (claimFirst p rest).map (fun r => (y, c) :: r)

/-- Pool view of one pass of `nonMatchingSlices`: residue of `outer`
against the pool, together with the final pool. -/
def greedyPass (f : E → E → Bool) : List E → List (E × Bool) → List E × List (E × Bool)
  | [], pool => ([], pool)
  | x :: xs, pool =>
    match claimFirst (fun y => f x y) pool with
    | some pool' => greedyPass f xs pool'
    | none =>
      let r := greedyPass f xs pool
      (x :: r.1, r.2)

/-- The multiset of still-unclaimed elements of a pool. -/
def unclaimed (pool : List (E × Bool)) : Multiset E :=
  ((pool.filter (fun q => !q.2)).map Prod.fst : List E)

end Slices

/-- A Go error value: `id` models the dynamic identity used by the `==`
interface comparison (two errors built by separate `errors.New`/
`fmt.Errorf` calls are distinct even with equal text), `msg` the text
returned by the `Error()` method. -/
structure GoError where
  id : Nat
  msg : String
deriving DecidableEq

/-- Calling `.Error()` on a possibly-nil error: dereferencing nil panics
(`.error ()`), otherwise the message text is returned. -/
def errMessage : Option GoError → Except Unit String
  | none => .error ()
  | some e => .ok e.msg

/-- `ErrorsMatch` from the source: a direct `==` comparison first (equal
errors, including both nil, match); otherwise a nil on either side fails
without calling `Error()`; otherwise the two message texts are compared. -/
def ErrorsMatch (expected input : Option GoError) : Except Unit Bool :=
  if expected = input then .ok true
  else if expected.isNone || input.isNone then .ok false
  else do
    let em ← errMessage expected
    let im ← errMessage input
    .ok (em = im)

/-- `panicHandler` from the source, with the guarded callback embedded as
its outcome (`.ok ()` for a normal return, `.error p` for a panic with
payload `p`) and `debug.Stack()` as the parameter `stackDump`:
`panicked` starts `true` and is cleared only after `fn()` returns; the
deferred function recovers the payload and snapshots the stack only when
`panicked` is still set. -/
def panicHandler (stackDump : String) (fn : Except α Unit) : Bool × Option α × String :=
  let panicked := match fn with | .ok _ => false | .error _ => true
  let msg : Option α := match fn with | .ok _ => none | .error p => some p
  let stack := if panicked then stackDump else ""
  (panicked, msg, stack)

mutual

theorem deepEqual_iff : ∀ u v, deepEqual u v = true ↔ u = v ∧ containsNaN u = false
  | .vbool a, .vbool b => by simp [deepEqual, containsNaN]
  | .vbool a, .vint b => by simp [deepEqual, containsNaN]
  | .vbool a, .vstr b => by simp [deepEqual, containsNaN]
  | .vbool a, .vfloat b => by simp [deepEqual, containsNaN]
  | .vbool a, .vnan => by simp [deepEqual, containsNaN]
  | .vbool a, .vslice ys => by simp [deepEqual, containsNaN]
  | .vint a, .vbool b => by simp [deepEqual, containsNaN]
  | .vint a, .vint b => by simp [deepEqual, containsNaN]
  | .vint a, .vstr b => by simp [deepEqual, containsNaN]
  | .vint a, .vfloat b => by simp [deepEqual, containsNaN]
  | .vint a, .vnan => by simp [deepEqual, containsNaN]
  | .vint a, .vslice ys => by simp [deepEqual, containsNaN]
  | .vstr a, .vbool b => by simp [deepEqual, containsNaN]
  | .vstr a, .vint b => by simp [deepEqual, containsNaN]
  | .vstr a, .vstr b => by simp [deepEqual, containsNaN]
  | .vstr a, .vfloat b => by simp [deepEqual, containsNaN]
  | .vstr a, .vnan => by simp [deepEqual, containsNaN]
  | .vstr a, .vslice ys => by simp [deepEqual, containsNaN]
  | .vfloat a, .vbool b => by simp [deepEqual, containsNaN]
  | .vfloat a, .vint b => by simp [deepEqual, containsNaN]
  | .vfloat a, .vstr b => by simp [deepEqual, containsNaN]
  | .vfloat a, .vfloat b => by simp [deepEqual, containsNaN]
  | .vfloat a, .vnan => by simp [deepEqual, containsNaN]
  | .vfloat a, .vslice ys => by simp [deepEqual, containsNaN]
  | .vnan, .vbool b => by simp [deepEqual, containsNaN]
  | .vnan, .vint b => by simp [deepEqual, containsNaN]
  | .vnan, .vstr b => by simp [deepEqual, containsNaN]
  | .vnan, .vfloat b => by simp [deepEqual, containsNaN]
  | .vnan, .vnan => by simp [deepEqual, containsNaN]
  | .vnan, .vslice ys => by simp [deepEqual, containsNaN]
  | .vslice xs, .vbool b => by simp [deepEqual, containsNaN]
  | .vslice xs, .vint b => by simp [deepEqual, containsNaN]
  | .vslice xs, .vstr b => by simp [deepEqual, containsNaN]
  | .vslice xs, .vfloat b => by simp [deepEqual, containsNaN]
  | .vslice xs, .vnan => by simp [deepEqual, containsNaN]
  | .vslice xs, .vslice ys => by simp [deepEqual, containsNaN, deepEqualList_iff xs ys]

theorem deepEqualList_iff : ∀ xs ys, deepEqualList xs ys = true ↔ xs = ys ∧ containsNaNList xs = false
  | [], [] => by simp [deepEqualList, containsNaNList]
  | [], y :: ys => by simp [deepEqualList]
  | x :: xs, [] => by simp [deepEqualList]
  | x :: xs, y :: ys => by
      simp only [deepEqualList, containsNaNList, Bool.and_eq_true, deepEqual_iff x y,
        deepEqualList_iff xs ys, List.cons.injEq, Bool.or_eq_false_iff]
      constructor
      · rintro ⟨⟨h1, h2⟩, h3, h4⟩; exact ⟨⟨h1, h3⟩, h2, h4⟩
      · rintro ⟨⟨h1, h3⟩, h2, h4⟩; exact ⟨⟨h1, h2⟩, h3, h4⟩

end

/-- `reflect.DeepEqual` is reflexive exactly on values free of NaN. -/
theorem deepEqual_self (v : GoVal) : deepEqual v v = !containsNaN v := by
  cases h : containsNaN v
  · simpa using (deepEqual_iff v v).mpr ⟨rfl, h⟩
  · simp only [Bool.not_true]
    cases h2 : deepEqual v v
    · rfl
    · exact absurd ((deepEqual_iff v v).mp h2).2 (by simp [h])

/-- `reflect.DeepEqual` is symmetric. -/
theorem deepEqual_true_symm {u v : GoVal} (h : deepEqual u v = true) :
    deepEqual v u = true := by
  obtain ⟨rfl, hn⟩ := (deepEqual_iff u v).mp h
  exact h

/-- `reflect.DeepEqual` is transitive. -/
theorem deepEqual_true_trans {u v w : GoVal} (h1 : deepEqual u v = true)
    (h2 : deepEqual v w = true) : deepEqual u w = true := by
  obtain ⟨rfl, hn⟩ := (deepEqual_iff u v).mp h1
  exact h2

/-- C6: for every value `v`, `Equal(h, v, v)` passes, except when `v` is
or contains a floating-point NaN, in which case it fails and records a
mismatch. -/
theorem equal_self_eq_not_containsNaN (v : GoVal) : Equal v v = !containsNaN v :=
  deepEqual_self v

/-- C3: on expected `[1,2,3,4,5]` and input `[5,4,1,4,2]`, `SlicesMatch`
fails with exactly the residues `expectedResidue = [3]` and
`inputResidue = [4]`. -/
theorem slicesMatch_concrete_residues :
    SlicesMatch deepEqual
        [.vint 1, .vint 2, .vint 3, .vint 4, .vint 5]
        [.vint 5, .vint 4, .vint 1, .vint 4, .vint 2] =
      .ok (.elementsMismatch [.vint 3] [.vint 4]) := rfl

/-- C5: on slices of different lengths, `SlicesMatch` fails with the
length-mismatch message reporting both lengths, the result does not depend
on the element differ (it is never invoked), and the outcome is never the
non-matching-elements message. -/
theorem slicesMatch_length_short_circuit {E : Type} (eq : E → E → Bool)
    (a b : List E) (h : a.length ≠ b.length) :
    SlicesMatch eq a b = .ok (.lengthMismatch a.length b.length) ∧
    (∀ d1 d2 : List E → List E → Except Unit (List E × List E),
        SlicesMatchWith d1 a b = SlicesMatchWith d2 a b) ∧
    (∀ ra rb, SlicesMatch eq a b ≠ .ok (.elementsMismatch ra rb)) := by
  refine ⟨?_, ?_, ?_⟩ <;> simp [SlicesMatch, SlicesMatchWith, h]

theorem slicesMatch_length_short_circuit_witness :
    ([(1 : Int)].length ≠ ([] : List Int).length) ∧
      SlicesMatch (fun x y : Int => decide (x = y)) [1] [] =
        .ok (.lengthMismatch 1 0) :=
  ⟨by decide,
    (slicesMatch_length_short_circuit (fun x y : Int => decide (x = y)) [1] []
      (by decide)).1⟩

/-- C8: `ErrorsMatch` never panics (never dereferences a nil error), and
passes exactly when both errors are nil, or they are the identical
reference, or both are non-nil with the same message text. -/
theorem errorsMatch_spec (e i : Option GoError) :
    (∃ r : Bool, ErrorsMatch e i = .ok r) ∧
    (ErrorsMatch e i = .ok true ↔
      (e = none ∧ i = none) ∨ e = i ∨
        ∃ a b, e = some a ∧ i = some b ∧ a.msg = b.msg) := by
  by_cases h : e = i
  · subst h
    refine ⟨⟨true, by simp [ErrorsMatch]⟩, by simp [ErrorsMatch]⟩
  · cases e with
    | none =>
      cases i with
      | none => exact absurd rfl h
      | some b =>
        refine ⟨⟨false, rfl⟩, ?_⟩
        rw [show ErrorsMatch none (some b) = .ok false from rfl]
        simp
    | some a =>
      cases i with
      | none =>
        refine ⟨⟨false, rfl⟩, ?_⟩
        rw [show ErrorsMatch (some a) none = .ok false from rfl]
        simp
      | some b =>
        have hrun : ErrorsMatch (some a) (some b) = .ok (decide (a.msg = b.msg)) := by
          simp only [ErrorsMatch, if_neg h]
          rfl
        refine ⟨⟨decide (a.msg = b.msg), hrun⟩, ?_⟩
        rw [hrun]
        constructor
        · intro hok
          refine Or.inr (Or.inr ⟨a, b, rfl, rfl, ?_⟩)
          simpa using hok
        · rintro (⟨h1, _⟩ | h1 | ⟨a2, b2, ha, hb, hmsg⟩)
          · exact absurd h1 (by simp)
          · exact absurd h1 h
          · cases ha; cases hb; simp [hmsg]

/-- C9: a callback that completes normally yields `raised = false`, a nil
recovered value and an empty stack; a callback that panics yields
`raised = true`, the recovered payload and the non-empty stack snapshot,
and the panic is not re-raised (the handler returns a plain tuple). -/
theorem panicHandler_spec {A : Type} (stackDump : String) (fn : Except A Unit)
    (hs : stackDump ≠ "") :
    (fn = .ok () → panicHandler stackDump fn = (false, none, "")) ∧
    (∀ p, fn = .error p →
      panicHandler stackDump fn = (true, some p, stackDump) ∧
      (panicHandler stackDump fn).2.2 ≠ "") := by
  constructor
  · rintro rfl; rfl
  · rintro p rfl
    exact ⟨rfl, by simpa [panicHandler] using hs⟩

theorem panicHandler_spec_witness :
    ("goroutine 1 [running]" ≠ "") ∧
      panicHandler "goroutine 1 [running]" (Except.error (0 : Nat)) =
        (true, some 0, "goroutine 1 [running]") :=
  ⟨by decide,
    ((panicHandler_spec "goroutine 1 [running]" (Except.error (0 : Nat))
        (by decide)).2 0 rfl).1⟩


section MapLemmas

variable {K : Type} {E : Type} [DecidableEq K]

theorem lookupAL_insertAL_same (k : K) (v : E) (l : List (K × E)) :
    lookupAL k (insertAL k v l) = some v := by
  induction l with
  | nil => simp [insertAL, lookupAL]
  | cons p rest ih =>
    obtain ⟨k', v'⟩ := p
    by_cases h : k' = k
    · subst h
      simp [insertAL, lookupAL]
    · simp [insertAL, lookupAL, h, ih]

theorem lookupAL_insertAL_other {k k' : K} (hne : k' ≠ k) (v : E) (l : List (K × E)) :
    lookupAL k (insertAL k' v l) = lookupAL k l := by
  induction l with
  | nil => simp [insertAL, lookupAL, hne]
  | cons p rest ih =>
    obtain ⟨k2, v2⟩ := p
    by_cases h : k2 = k'
    · subst h
      simp [insertAL, lookupAL, hne, ih]
    · simp only [insertAL, if_neg h]
      by_cases h2 : k2 = k
      · simp [lookupAL, h2]
      · simp [lookupAL, h2, ih]

theorem insertAL_ne_nil (k : K) (v : E) (l : List (K × E)) : insertAL k v l ≠ [] := by
  cases l with
  | nil => simp [insertAL]
  | cons p rest =>
    obtain ⟨k', v'⟩ := p
    by_cases h : k' = k <;> simp [insertAL, h]

theorem lookupAL_some_mem {k : K} {v : E} {l : List (K × E)}
    (h : lookupAL k l = some v) : (k, v) ∈ l := by
  induction l with
  | nil => simp [lookupAL] at h
  | cons p rest ih =>
    obtain ⟨k', v'⟩ := p
    by_cases h2 : k' = k
    · subst h2
      simp only [lookupAL, if_pos rfl] at h
      injection h with h
      subst h
      exact List.mem_cons_self _ _
    · simp only [lookupAL, if_neg h2] at h
      exact List.mem_cons_of_mem _ (ih h)

theorem lookupAL_of_mem_nodup {k : K} {v : E} {l : List (K × E)}
    (hnd : nodupKeys l) (h : (k, v) ∈ l) : lookupAL k l = some v := by
  induction l with
  | nil => simp at h
  | cons p rest ih =>
    obtain ⟨k', v'⟩ := p
    simp only [nodupKeys, List.map_cons, List.nodup_cons] at hnd
    rcases List.mem_cons.mp h with h1 | h1
    · injection h1 with h1a h1b
      subst h1a
      subst h1b
      simp [lookupAL]
    · have hk : k ≠ k' := by
        intro hkk
        subst hkk
        exact hnd.1 (List.mem_map.mpr ⟨(k, v), h1, rfl⟩)
      simp only [lookupAL, if_neg (Ne.symm hk)]
      exact ih hnd.2 h1

end MapLemmas


section MapFoldLemmas

variable {K : Type} {E : Type} [DecidableEq K]

theorem mapStep1_lookup_other (eq : E → E → Bool) (zero : E) (b : List (K × E))
    (acc : List (K × E) × List (K × E)) (p : K × E) {k : K} (hne : p.1 ≠ k) :
    lookupAL k (mapStep1 eq zero b acc p).1 = lookupAL k acc.1 ∧
    lookupAL k (mapStep1 eq zero b acc p).2 = lookupAL k acc.2 := by
  simp only [mapStep1]
  split_ifs <;> constructor <;> simp [lookupAL_insertAL_other hne]

theorem foldl_mapStep1_lookup_skip (eq : E → E → Bool) (zero : E) (b : List (K × E))
    (a : List (K × E)) (acc : List (K × E) × List (K × E)) {k : K}
    (hk : k ∉ a.map Prod.fst) :
    lookupAL k (a.foldl (mapStep1 eq zero b) acc).1 = lookupAL k acc.1 ∧
    lookupAL k (a.foldl (mapStep1 eq zero b) acc).2 = lookupAL k acc.2 := by
  induction a generalizing acc with
  | nil => exact ⟨rfl, rfl⟩
  | cons p rest ih =>
    simp only [List.map_cons, List.mem_cons, not_or] at hk
    rw [List.foldl_cons]
    obtain ⟨ih1, ih2⟩ := ih (mapStep1 eq zero b acc p) hk.2
    obtain ⟨hs1, hs2⟩ := mapStep1_lookup_other eq zero b acc p (fun h => hk.1 h.symm)
    exact ⟨ih1.trans hs1, ih2.trans hs2⟩

theorem foldl_mapStep1_lookup (eq : E → E → Bool) (zero : E) (b : List (K × E))
    (a : List (K × E)) (acc : List (K × E) × List (K × E)) {k : K} {v : E}
    (hnd : nodupKeys a) (hin : (k, v) ∈ a)
    (h1 : lookupAL k acc.1 = none) (h2 : lookupAL k acc.2 = none) :
    lookupAL k (a.foldl (mapStep1 eq zero b) acc).1 =
      (match lookupAL k b with
        | none => some v
        | some w => if eq v w = true then none else some v) ∧
    lookupAL k (a.foldl (mapStep1 eq zero b) acc).2 =
      (match lookupAL k b with
        | none => if eq v zero = true then none else some zero
        | some w => if eq v w = true then none else some w) := by
  induction a generalizing acc with
  | nil => simp at hin
  | cons p rest ih =>
    simp only [nodupKeys, List.map_cons, List.nodup_cons] at hnd
    rw [List.foldl_cons]
    rcases List.mem_cons.mp hin with heq | hmem
    · obtain ⟨q1, q2⟩ := p
      injection heq with ha hb
      subst ha
      subst hb
      have hk : k ∉ rest.map Prod.fst := hnd.1
      obtain ⟨hs1, hs2⟩ := foldl_mapStep1_lookup_skip eq zero b rest
        (mapStep1 eq zero b acc (k, v)) hk
      rw [hs1, hs2]
      simp only [mapStep1]
      cases hb : lookupAL k b with
      | none =>
        by_cases he : eq v zero = true
        · simp [hb, he, lookupAL_insertAL_same, h2]
        · simp [hb, he, lookupAL_insertAL_same]
      | some w =>
        by_cases he : eq v w = true
        · simp [hb, he, h1, h2]
        · simp [hb, he, lookupAL_insertAL_same]
    · have hk : p.1 ≠ k := by
        intro h
        apply hnd.1
        rw [h]
        exact List.mem_map.mpr ⟨(k, v), hmem, rfl⟩
      obtain ⟨hs1, hs2⟩ := mapStep1_lookup_other eq zero b acc p hk
      exact ih (mapStep1 eq zero b acc p) hnd.2 hmem (hs1.trans h1) (hs2.trans h2)

theorem foldl_mapStep2_lookup_present (a : List (K × E)) (b : List (K × E))
    (bout : List (K × E)) {k : K} (hk : (lookupAL k a).isSome) :
    lookupAL k (b.foldl (mapStep2 a) bout) = lookupAL k bout := by
  induction b generalizing bout with
  | nil => rfl
  | cons q rest ih =>
    rw [List.foldl_cons]
    rw [ih (mapStep2 a bout q)]
    simp only [mapStep2]
    by_cases hq : q.1 = k
    · subst hq
      rw [if_neg]
      simp only [Option.isNone_iff_eq_none]
      intro hcon
      rw [hcon] at hk
      simp at hk
    · split_ifs <;> simp [lookupAL_insertAL_other hq]

end MapFoldLemmas

/-- C1 (amended): for a key `k` of `a`, if `k` is absent from `b` the entry
`(k, a[k])` is added to `residueA`; `residueB` gains an entry at `k`
exactly when `a`'s value differs (under the differ's equality) from `b`'s
value at `k` — where a key absent from `b` reads as the zero value, so
`residueB` gains a zero-value entry for a key `b` does not contain
whenever `a`'s value at that key differs from the zero value. -/
theorem nonMatchingMaps_first_pass {K E : Type} [DecidableEq K]
    (eq : E → E → Bool) (zero : E) (a b : List (K × E)) (k : K) (v : E)
    (hnd : nodupKeys a) (hin : lookupAL k a = some v) :
    (lookupAL k b = none → lookupAL k (nonMatchingMaps eq zero a b).1 = some v) ∧
    lookupAL k (nonMatchingMaps eq zero a b).2 =
      (match lookupAL k b with
        | none => if eq v zero = true then none else some zero
        | some w => if eq v w = true then none else some w) := by
  have hmem := lookupAL_some_mem hin
  obtain ⟨hc1, hc2⟩ := foldl_mapStep1_lookup eq zero b a ([], []) hnd hmem rfl rfl
  have hpres := foldl_mapStep2_lookup_present a b
    (a.foldl (mapStep1 eq zero b) ([], [])).2 (k := k) (by simp [hin])
  constructor
  · intro hb
    show lookupAL k (a.foldl (mapStep1 eq zero b) ([], [])).1 = some v
    rw [hc1, hb]
  · show lookupAL k ((nonMatchingMaps eq zero a b).2) = _
    unfold nonMatchingMaps
    exact hpres.trans hc2

theorem nonMatchingMaps_first_pass_witness :
    nodupKeys [((0 : Nat), (5 : Int))] ∧
    lookupAL (0 : Nat) [((0 : Nat), (5 : Int))] = some 5 ∧
    (lookupAL (0 : Nat) ([] : List (Nat × Int)) = none →
      lookupAL 0 (nonMatchingMaps (fun x y : Int => decide (x = y)) 0
        [(0, 5)] []).1 = some 5) := by
  refine ⟨by simp [nodupKeys], by decide, ?_⟩
  exact (nonMatchingMaps_first_pass (fun x y : Int => decide (x = y)) 0
    [(0, 5)] [] 0 5 (by simp [nodupKeys]) (by decide)).1

/-- C1 as stated is false: with `a = {0 ↦ 1}` and `b = {}` (integer
values, zero value `0`), the key `0` is absent from `b`, yet `residueB`
gains the zero-value entry `(0, 0)` from the first pass. -/
theorem nonMatchingMaps_first_pass_counterexample :
    lookupAL (0 : Nat) ([] : List (Nat × Int)) = none ∧
    lookupAL (0 : Nat)
      (nonMatchingMaps (fun x y : Int => decide (x = y)) 0
        [((0 : Nat), (1 : Int))] []).2 = some 0 := ⟨rfl, rfl⟩


section MapPassLemmas

variable {K : Type} {E : Type} [DecidableEq K]

theorem foldl_mapStep1_fst_empty_iff (eq : E → E → Bool) (zero : E)
    (b : List (K × E)) (a : List (K × E)) (acc : List (K × E) × List (K × E)) :
    (a.foldl (mapStep1 eq zero b) acc).1 = [] ↔
      acc.1 = [] ∧ ∀ p ∈ a, ∃ w, lookupAL p.1 b = some w ∧ eq p.2 w = true := by
  induction a generalizing acc with
  | nil => simp
  | cons p rest ih =>
    rw [List.foldl_cons, ih, List.forall_mem_cons]
    have hstep : (mapStep1 eq zero b acc p).1 = [] ↔
        acc.1 = [] ∧ ∃ w, lookupAL p.1 b = some w ∧ eq p.2 w = true := by
      cases hb : lookupAL p.1 b with
      | none =>
        simp only [mapStep1, hb, Option.isNone_none, Option.getD_none]
        split_ifs <;> simp_all [insertAL_ne_nil]
      | some w =>
        simp only [mapStep1, hb, Option.isNone_some, Option.getD_some]
        split_ifs <;> simp_all [insertAL_ne_nil]
    rw [hstep]
    tauto

theorem foldl_mapStep1_snd_empty_iff (eq : E → E → Bool) (zero : E)
    (b : List (K × E)) (a : List (K × E)) (acc : List (K × E) × List (K × E)) :
    (a.foldl (mapStep1 eq zero b) acc).2 = [] ↔
      acc.2 = [] ∧ ∀ p ∈ a, eq p.2 ((lookupAL p.1 b).getD zero) = true := by
  induction a generalizing acc with
  | nil => simp
  | cons p rest ih =>
    rw [List.foldl_cons, ih, List.forall_mem_cons]
    have hstep : (mapStep1 eq zero b acc p).2 = [] ↔
        acc.2 = [] ∧ eq p.2 ((lookupAL p.1 b).getD zero) = true := by
      simp only [mapStep1]
      split_ifs <;> simp_all [insertAL_ne_nil]
    rw [hstep]
    tauto

theorem foldl_mapStep2_empty_iff (a : List (K × E)) (b : List (K × E))
    (bout : List (K × E)) :
    b.foldl (mapStep2 a) bout = [] ↔
      bout = [] ∧ ∀ q ∈ b, (lookupAL q.1 a).isSome = true := by
  induction b generalizing bout with
  | nil => simp
  | cons q rest ih =>
    rw [List.foldl_cons, ih, List.forall_mem_cons]
    have hstep : mapStep2 a bout q = [] ↔
        bout = [] ∧ (lookupAL q.1 a).isSome = true := by
      cases hqq : lookupAL q.1 a with
      | none => simp [mapStep2, hqq, insertAL_ne_nil]
      | some w => simp [mapStep2, hqq]
    rw [hstep]
    tauto

end MapPassLemmas


section MapSymmetry

variable {K : Type} {E : Type} [DecidableEq K]

theorem mapsMatch_pass_iff (eq : E → E → Bool) (zero : E) (a b : List (K × E)) :
    MapsMatch eq zero a b = .pass ↔
      (∀ p ∈ a, ∃ w, lookupAL p.1 b = some w ∧ eq p.2 w = true) ∧
      (∀ q ∈ b, (lookupAL q.1 a).isSome = true) := by
  have h1 : (nonMatchingMaps eq zero a b).1 = [] ↔
      ∀ p ∈ a, ∃ w, lookupAL p.1 b = some w ∧ eq p.2 w = true := by
    unfold nonMatchingMaps
    simpa using foldl_mapStep1_fst_empty_iff eq zero b a ([], [])
  have h2 : (nonMatchingMaps eq zero a b).2 = [] ↔
      (∀ p ∈ a, eq p.2 ((lookupAL p.1 b).getD zero) = true) ∧
      (∀ q ∈ b, (lookupAL q.1 a).isSome = true) := by
    unfold nonMatchingMaps
    rw [foldl_mapStep2_empty_iff]
    rw [foldl_mapStep1_snd_empty_iff]
    simp
  have hAM : (∀ p ∈ a, ∃ w, lookupAL p.1 b = some w ∧ eq p.2 w = true) →
      ∀ p ∈ a, eq p.2 ((lookupAL p.1 b).getD zero) = true := by
    intro hA p hp
    obtain ⟨w, hw, he⟩ := hA p hp
    rw [hw]
    exact he
  unfold MapsMatch
  by_cases hc : (nonMatchingMaps eq zero a b).1.length > 0 ∨
      (nonMatchingMaps eq zero a b).2.length > 0
  · rw [if_pos hc]
    constructor
    · intro h
      exact MatchOutcome.noConfusion h
    · rintro ⟨hA, hB⟩
      exfalso
      rcases hc with hc | hc
      · rw [h1.mpr hA] at hc
        simp at hc
      · rw [h2.mpr ⟨hAM hA, hB⟩] at hc
        simp at hc
  · rw [if_neg hc]
    push_neg at hc
    simp only [Nat.not_lt, Nat.le_zero, List.length_eq_zero] at hc
    constructor
    · intro _
      exact ⟨h1.mp hc.1, (h2.mp hc.2).2⟩
    · intro _
      rfl

theorem mapsMatch_pass_mono (eq : E → E → Bool) (zero : E) {a b : List (K × E)}
    (hsym : ∀ x y, eq x y = eq y x) (hb : nodupKeys b)
    (h : MapsMatch eq zero a b = .pass) : MapsMatch eq zero b a = .pass := by
  rw [mapsMatch_pass_iff] at h ⊢
  obtain ⟨hA, hB⟩ := h
  constructor
  · intro q hq
    obtain ⟨k, w⟩ := q
    obtain ⟨v, hv⟩ := Option.isSome_iff_exists.mp (hB (k, w) hq)
    obtain ⟨w2, hw2, he⟩ := hA (k, v) (lookupAL_some_mem hv)
    rw [lookupAL_of_mem_nodup hb hq] at hw2
    injection hw2 with hw2
    subst hw2
    exact ⟨v, hv, by rw [hsym]; exact he⟩
  · intro p hp
    obtain ⟨w, hw, _⟩ := hA p hp
    simp [hw]

end MapSymmetry


/-- C7 (amended): for every mapping `m` with distinct keys none of whose
values contains a NaN, `MapsMatch(h, m, m)` passes; `MapsMatch` on a nil
map (no entries) and a zero-size map passes; and `MapsMatch` never fails
with a size-based short-circuit: its outcome is never the length-mismatch
message, for any pair of maps. -/
theorem mapsMatch_self_pass {K : Type} [DecidableEq K] (zero : GoVal)
    (m : List (K × GoVal)) (hnd : nodupKeys m)
    (hnan : ∀ p ∈ m, containsNaN p.2 = false) :
    MapsMatch deepEqual zero m m = .pass ∧
    MapsMatch deepEqual zero ([] : List (K × GoVal)) [] = .pass ∧
    (∀ (a b : List (K × GoVal)) (la lb : Nat),
      MapsMatch deepEqual zero a b ≠ .lengthMismatch la lb) := by
  refine ⟨?_, rfl, ?_⟩
  · rw [mapsMatch_pass_iff]
    constructor
    · intro p hp
      obtain ⟨k, v⟩ := p
      refine ⟨v, lookupAL_of_mem_nodup hnd hp, ?_⟩
      rw [deepEqual_self, hnan (k, v) hp]
      rfl
    · intro q hq
      obtain ⟨k, v⟩ := q
      simp [lookupAL_of_mem_nodup hnd hq]
  · intro a b la lb h
    simp only [MapsMatch] at h
    split at h
    · exact MatchOutcome.noConfusion h
    · exact MatchOutcome.noConfusion h

theorem mapsMatch_self_pass_witness :
    nodupKeys [((0 : Nat), GoVal.vint 1)] ∧
    MapsMatch deepEqual (GoVal.vint 0) [((0 : Nat), GoVal.vint 1)]
      [((0 : Nat), GoVal.vint 1)] = .pass := by
  constructor
  · simp [nodupKeys]
  · exact (mapsMatch_self_pass (GoVal.vint 0) [((0 : Nat), GoVal.vint 1)]
      (by simp [nodupKeys])
      (by intro p hp; simp only [List.mem_singleton] at hp; subst hp; rfl)).1

/-- C7 as stated is false: a map whose value is a NaN does not match
itself, because `reflect.DeepEqual` rejects NaN against itself. -/
theorem mapsMatch_self_counterexample :
    MapsMatch deepEqual (GoVal.vfloat 0) [((0 : Nat), GoVal.vnan)]
      [((0 : Nat), GoVal.vnan)] ≠ .pass := by
  intro h
  rw [show MapsMatch deepEqual (GoVal.vfloat 0) [((0 : Nat), GoVal.vnan)]
      [((0 : Nat), GoVal.vnan)] =
      MatchOutcome.elementsMismatch [((0 : Nat), GoVal.vnan)]
        [((0 : Nat), GoVal.vnan)] from rfl] at h
  exact MatchOutcome.noConfusion h


section SliceAgreement

variable {E : Type}

theorem set_append_length (vpre : List Bool) (c : Bool) (vsuf : List Bool) (x : Bool) :
    (vpre ++ c :: vsuf).set vpre.length x = vpre ++ x :: vsuf := by
  induction vpre with
  | nil => rfl
  | cons h t ih => simp [List.set, ih]

theorem get?_append_length (vpre : List Bool) (c : Bool) (vsuf : List Bool) :
    (vpre ++ c :: vsuf).get? vpre.length = some c := by
  induction vpre with
  | nil => rfl
  | cons h t ih => simpa using ih

theorem zip_fst_snd_eta {A B : Type} : ∀ (l : List (A × B)),
    (l.map Prod.fst).zip (l.map Prod.snd) = l
  | [] => rfl
  | p :: rest => by simp [zip_fst_snd_eta rest]

theorem claimFirst_fst_map (p : E → Bool) :
    ∀ (pool pool' : List (E × Bool)), claimFirst p pool = some pool' →
      pool'.map Prod.fst = pool.map Prod.fst
  | [], _, h => by simp [claimFirst] at h
  | (y, c) :: rest, pool', h => by
    simp only [claimFirst] at h
    split_ifs at h with hc
    · injection h with h
      subst h
      rfl
    · cases hcf : claimFirst p rest with
      | none => rw [hcf] at h; simp at h
      | some r =>
        rw [hcf] at h
        simp only [Option.map_some'] at h
        injection h with h
        subst h
        simp [claimFirst_fst_map p rest r hcf]

theorem scanClaim_spec (p : E → Bool) :
    ∀ (b : List E) (vpre vcur : List Bool), vcur.length = b.length →
      scanClaim p b vpre.length (vpre ++ vcur) =
        (match claimFirst p (b.zip vcur) with
          | none => .ok (false, vpre ++ vcur)
          | some pool => .ok (true, vpre ++ pool.map Prod.snd))
  | [], vpre, vcur, hlen => by
    rw [List.length_eq_zero.mp hlen]
    rfl
  | y :: rest, vpre, vcur, hlen => by
    cases vcur with
    | nil => exact absurd hlen (by simp)
    | cons c vc =>
      have hlen2 : vc.length = rest.length := by simpa using hlen
      simp only [scanClaim, get?_append_length, List.zip_cons_cons]
      by_cases hc : (!c && p y) = true
      · rw [if_pos hc, set_append_length]
        have hcf : claimFirst p ((y, c) :: rest.zip vc) = some ((y, true) :: rest.zip vc) := by
          simp only [claimFirst, if_pos hc]
        rw [hcf]
        simp [List.map_snd_zip _ _ (le_of_eq (hlen2.trans rfl)) ]
      · rw [if_neg hc]
        have heq : vpre ++ c :: vc = (vpre ++ [c]) ++ vc := by simp
        have hlen3 : vpre.length + 1 = (vpre ++ [c]).length := by simp
        rw [heq, hlen3, scanClaim_spec p rest (vpre ++ [c]) vc hlen2]
        have hcf : claimFirst p ((y, c) :: rest.zip vc) =
            (claimFirst p (rest.zip vc)).map (fun r => (y, c) :: r) := by
          simp only [claimFirst, if_neg hc]
        rw [hcf]
        cases claimFirst p (rest.zip vc) with
        | none => simp
        | some pool => simp

end SliceAgreement




section SliceAgreement2

variable {E : Type}

theorem except_bind_ok {A B : Type} (a : A) (f : A → Except Unit B) :
    ((Except.ok a : Except Unit A) >>= f) = f a := rfl

theorem greedyPass_fst_map (f : E → E → Bool) :
    ∀ (outer : List E) (pool : List (E × Bool)),
      ((greedyPass f outer pool).2).map Prod.fst = pool.map Prod.fst
  | [], pool => rfl
  | x :: xs, pool => by
    simp only [greedyPass]
    cases hcf : claimFirst (fun y => f x y) pool with
    | none => simpa using greedyPass_fst_map f xs pool
    | some pool' =>
      rw [greedyPass_fst_map f xs pool', claimFirst_fst_map _ pool pool' hcf]

theorem passResidues_spec (f : E → E → Bool) :
    ∀ (outer scan : List E) (visited : List Bool), visited.length = scan.length →
      passResidues f outer scan visited =
        .ok ((greedyPass f outer (scan.zip visited)).1,
             ((greedyPass f outer (scan.zip visited)).2).map Prod.snd)
  | [], scan, visited, hlen => by
    simp only [passResidues, greedyPass]
    rw [List.map_snd_zip _ _ (le_of_eq hlen)]
  | x :: xs, scan, visited, hlen => by
    simp only [passResidues]
    have hs := scanClaim_spec (fun y => f x y) scan [] visited hlen
    simp only [List.nil_append, List.length_nil] at hs
    rw [hs]
    cases hcf : claimFirst (fun y => f x y) (scan.zip visited) with
    | none =>
      simp only [except_bind_ok]
      rw [passResidues_spec f xs scan visited hlen]
      simp only [except_bind_ok, greedyPass, hcf]
      simp
    | some pool' =>
      have hfst : pool'.map Prod.fst = scan := by
        rw [claimFirst_fst_map _ _ _ hcf, List.map_fst_zip _ _ (le_of_eq hlen.symm)]
      have hlen2 : (pool'.map Prod.snd).length = scan.length := by
        rw [List.length_map]
        have h := congrArg List.length hfst
        simpa using h
      have hpool : scan.zip (pool'.map Prod.snd) = pool' := by
        conv_lhs => rw [← hfst]
        exact zip_fst_snd_eta pool'
      simp only [except_bind_ok]
      rw [passResidues_spec f xs scan (pool'.map Prod.snd) hlen2, hpool]
      simp only [except_bind_ok, greedyPass, hcf]
      simp

theorem nonMatchingSlices_spec (eq : E → E → Bool) (a b : List E)
    (hlen : a.length = b.length) :
    nonMatchingSlices eq a b = .ok
      ((greedyPass (fun x y => eq x y) a (b.zip (List.replicate a.length false))).1,
       (greedyPass (fun x y => eq y x) b (a.zip (List.replicate a.length false))).1) := by
  simp only [nonMatchingSlices]
  have h1 : (List.replicate a.length (false : Bool)).length = b.length := by
    simp [hlen]
  rw [passResidues_spec _ a b _ h1]
  have hplen : ((greedyPass (fun x y => eq x y) a
      (b.zip (List.replicate a.length false))).2).length = a.length := by
    have h := congrArg List.length
      (greedyPass_fst_map (fun x y => eq x y) a (b.zip (List.replicate a.length false)))
    simp only [List.length_map] at h
    rw [h]
    simp [hlen]
  simp only [except_bind_ok]
  have hclear : (((greedyPass (fun x y => eq x y) a
      (b.zip (List.replicate a.length false))).2).map Prod.snd).map (fun _ => false) =
      List.replicate a.length false := by
    rw [List.map_map]
    rw [show ((fun _ => false) ∘ Prod.snd : E × Bool → Bool) = (fun _ => false) from rfl]
    rw [List.map_const']
    rw [hplen]
  rw [hclear]
  rw [passResidues_spec _ b a (List.replicate a.length false) (by simp)]
  simp only [except_bind_ok]

end SliceAgreement2

/-- C10: the `visited` array is sized by `len a` but indexed by positions
of `b` in the first pass (and of `a` in the second); under the
precondition `len a = len b` every access is in bounds and the differ
completes, the public `SlicesMatch` never performs an out-of-bounds access
for any pair of slices (the length guard returns first), and there is a
pair of slices of different lengths on which the bare differ does go out
of bounds. -/
theorem nonMatchingSlices_index_safety :
    (∀ (E : Type) (eq : E → E → Bool) (a b : List E), a.length = b.length →
      ∃ r, nonMatchingSlices eq a b = .ok r) ∧
    (∀ (E : Type) (eq : E → E → Bool) (a b : List E),
      ∃ out, SlicesMatch eq a b = .ok out) ∧
    nonMatchingSlices deepEqual [GoVal.vint 1] [GoVal.vint 2, GoVal.vint 2] =
      .error () := by
  refine ⟨?_, ?_, rfl⟩
  · intro E eq a b hlen
    exact ⟨_, nonMatchingSlices_spec eq a b hlen⟩
  · intro E eq a b
    by_cases hlen : a.length = b.length
    · rw [SlicesMatch, SlicesMatchWith, if_neg (not_not_intro hlen),
        nonMatchingSlices_spec eq a b hlen, except_bind_ok]
      exact ⟨_, rfl⟩
    · rw [SlicesMatch, SlicesMatchWith, if_pos hlen]
      exact ⟨_, rfl⟩

theorem nonMatchingSlices_index_safety_witness :
    ([(1 : Int), 2].length = [(3 : Int), 4].length) ∧
    ∃ r, nonMatchingSlices (fun x y : Int => decide (x = y)) [1, 2] [3, 4] = .ok r :=
  ⟨rfl, nonMatchingSlices_index_safety.1 Int (fun x y : Int => decide (x = y))
    [1, 2] [3, 4] rfl⟩


theorem nonMatchingSlices_swap {E : Type} (eq : E → E → Bool) (a b : List E)
    (hsym : ∀ x y, eq x y = eq y x) (hlen : a.length = b.length) :
    ∃ ra rb, nonMatchingSlices eq a b = .ok (ra, rb) ∧
      nonMatchingSlices eq b a = .ok (rb, ra) := by
  have hfe : (fun x y => eq y x) = (fun x y => eq x y) := by
    funext x y
    exact hsym y x
  have h1 := nonMatchingSlices_spec eq a b hlen
  have h2 := nonMatchingSlices_spec eq b a hlen.symm
  rw [hfe] at h1 h2
  rw [← hlen] at h2
  exact ⟨_, _, h1, h2⟩

/-- C2 (amended): swapping the two collections swaps the two residues for
the sequence differ, and the pass/fail outcome of both `SlicesMatch` and
`MapsMatch` is symmetric in its arguments; for `nonMatchingMaps` the
residues themselves do not swap (only the outcome is symmetric). -/
theorem comparison_symmetric :
    (∀ (E : Type) (eq : E → E → Bool) (a b : List E),
      (∀ x y, eq x y = eq y x) → a.length = b.length →
      ∃ ra rb, nonMatchingSlices eq a b = .ok (ra, rb) ∧
        nonMatchingSlices eq b a = .ok (rb, ra)) ∧
    (∀ (K E : Type) [DecidableEq K] (eq : E → E → Bool) (zero : E)
      (a b : List (K × E)), (∀ x y, eq x y = eq y x) →
      nodupKeys a → nodupKeys b →
      (MapsMatch eq zero a b = .pass ↔ MapsMatch eq zero b a = .pass)) ∧
    (∀ (E : Type) (eq : E → E → Bool) (a b : List E),
      (∀ x y, eq x y = eq y x) →
      (SlicesMatch eq a b = .ok .pass ↔ SlicesMatch eq b a = .ok .pass)) := by
  refine ⟨fun E eq a b hsym hlen => nonMatchingSlices_swap eq a b hsym hlen, ?_, ?_⟩
  · intro K E _ eq zero a b hsym ha hb
    exact ⟨mapsMatch_pass_mono eq zero hsym hb, mapsMatch_pass_mono eq zero hsym ha⟩
  · intro E eq a b hsym
    by_cases hlen : a.length = b.length
    · obtain ⟨ra, rb, h1, h2⟩ := nonMatchingSlices_swap eq a b hsym hlen
      have o1 : SlicesMatch eq a b =
          .ok (if ra.length > 0 ∨ rb.length > 0 then .elementsMismatch ra rb else .pass) := by
        rw [SlicesMatch, SlicesMatchWith, if_neg (not_not_intro hlen), h1, except_bind_ok]
      have o2 : SlicesMatch eq b a =
          .ok (if rb.length > 0 ∨ ra.length > 0 then .elementsMismatch rb ra else .pass) := by
        rw [SlicesMatch, SlicesMatchWith, if_neg (not_not_intro hlen.symm), h2, except_bind_ok]
      rw [o1, o2]
      by_cases hc : ra.length > 0 ∨ rb.length > 0
      · rw [if_pos hc, if_pos (or_comm.mp hc)]
        constructor <;> intro h <;> exact absurd h (by simp)
      · rw [if_neg hc, if_neg (fun h => hc (or_comm.mp h))]
    · have o1 : SlicesMatch eq a b = .ok (.lengthMismatch a.length b.length) := by
        rw [SlicesMatch, SlicesMatchWith, if_pos hlen]
      have o2 : SlicesMatch eq b a = .ok (.lengthMismatch b.length a.length) := by
        rw [SlicesMatch, SlicesMatchWith, if_pos (fun h => hlen h.symm)]
      rw [o1, o2]
      constructor <;> intro h <;> exact absurd h (by simp)

theorem comparison_symmetric_witness :
    ((∀ x y : Int, decide (x = y) = decide (y = x)) ∧
      ([(1 : Int), 2].length = [(2 : Int), 3].length) ∧
      ∃ ra rb, nonMatchingSlices (fun x y : Int => decide (x = y)) [1, 2] [2, 3] =
          .ok (ra, rb) ∧
        nonMatchingSlices (fun x y : Int => decide (x = y)) [2, 3] [1, 2] =
          .ok (rb, ra)) ∧
    (MapsMatch (fun x y : Int => decide (x = y)) 0 [((0 : Nat), (1 : Int))]
        [((0 : Nat), (1 : Int))] = .pass ↔
      MapsMatch (fun x y : Int => decide (x = y)) 0 [((0 : Nat), (1 : Int))]
        [((0 : Nat), (1 : Int))] = .pass) := by
  have hsym : ∀ x y : Int, decide (x = y) = decide (y = x) := by
    intro x y
    rw [decide_eq_decide]
    exact eq_comm
  refine ⟨⟨hsym, rfl, ?_⟩, ?_⟩
  · exact comparison_symmetric.1 Int (fun x y : Int => decide (x = y)) [1, 2] [2, 3]
      hsym rfl
  · exact comparison_symmetric.2.1 Nat Int (fun x y : Int => decide (x = y)) 0
      [((0 : Nat), (1 : Int))] [((0 : Nat), (1 : Int))] hsym
      (by simp [nodupKeys]) (by simp [nodupKeys])

/-- C2 as stated is false for the mapping differ: with `a = {0 ↦ 1}` and
`b = {}` (integer values, zero value 0), `nonMatchingMaps a b` is
`({0 ↦ 1}, {0 ↦ 0})` but `nonMatchingMaps b a` is `({}, {0 ↦ 1})`, which
is not the swap of the former. -/
theorem comparison_symmetric_counterexample :
    nonMatchingMaps (fun x y : Int => decide (x = y)) 0 ([] : List (Nat × Int))
        [((0 : Nat), (1 : Int))] ≠
      ((nonMatchingMaps (fun x y : Int => decide (x = y)) 0
          [((0 : Nat), (1 : Int))] ([] : List (Nat × Int))).2,
       (nonMatchingMaps (fun x y : Int => decide (x = y)) 0
          [((0 : Nat), (1 : Int))] ([] : List (Nat × Int))).1) := by
  intro h
  have h1 := congrArg (fun p => p.1) h
  exact List.noConfusion
    (show ([] : List (Nat × Int)) = [((0 : Nat), (0 : Int))] from h1)


section GreedyMatching

variable {E : Type}

theorem unclaimed_cons_true (z : E) (rest : List (E × Bool)) :
    unclaimed ((z, true) :: rest) = unclaimed rest := by
  simp [unclaimed]

theorem unclaimed_cons_false (z : E) (rest : List (E × Bool)) :
    unclaimed ((z, false) :: rest) = z ::ₘ unclaimed rest := by
  simp [unclaimed]

theorem claimFirst_none_forall (p : E → Bool) :
    ∀ pool, claimFirst p pool = none → ∀ y ∈ unclaimed pool, p y = false
  | [], _, y, hy => by simp [unclaimed] at hy
  | (z, c) :: rest, h, y, hy => by
    simp only [claimFirst] at h
    by_cases hc : (!c && p z) = true
    · rw [if_pos hc] at h
      exact absurd h (by simp)
    · rw [if_neg hc] at h
      have hrest : claimFirst p rest = none := by
        cases hcf : claimFirst p rest with
        | none => rfl
        | some r =>
          rw [hcf, Option.map_some'] at h
          exact Option.noConfusion h
      cases c with
      | true =>
        rw [unclaimed_cons_true] at hy
        exact claimFirst_none_forall p rest hrest y hy
      | false =>
        have hz : p z = false := by simpa using hc
        rw [unclaimed_cons_false] at hy
        rcases Multiset.mem_cons.mp hy with rfl | hy2
        · exact hz
        · exact claimFirst_none_forall p rest hrest y hy2

theorem claimFirst_some_unclaimed (p : E → Bool) :
    ∀ pool pool', claimFirst p pool = some pool' →
      ∃ y, p y = true ∧ unclaimed pool = y ::ₘ unclaimed pool'
  | [], _, h => by simp [claimFirst] at h
  | (z, c) :: rest, pool', h => by
    simp only [claimFirst] at h
    split_ifs at h with hc
    · injection h with h
      subst h
      rw [Bool.and_eq_true] at hc
      obtain ⟨hcc, hpz⟩ := hc
      have hcf : c = false := by simpa using hcc
      subst hcf
      rw [unclaimed_cons_false, unclaimed_cons_true]
      exact ⟨z, hpz, rfl⟩
    · cases hcf : claimFirst p rest with
      | none => rw [hcf] at h; simp at h
      | some r =>
        rw [hcf] at h
        simp only [Option.map_some'] at h
        injection h with h
        subst h
        obtain ⟨y, hy, hun⟩ := claimFirst_some_unclaimed p rest r hcf
        cases c with
        | true =>
          rw [unclaimed_cons_true, unclaimed_cons_true]
          exact ⟨y, hy, hun⟩
        | false =>
          rw [unclaimed_cons_false, unclaimed_cons_false, hun]
          exact ⟨y, hy, Multiset.cons_swap z y (unclaimed r)⟩

theorem rel_cons_of_cons {r : E → E → Prop}
    (hsym : ∀ x y, r x y → r y x) (htrans : ∀ x y z, r x y → r y z → r x z)
    {x y : E} {s t t' : Multiset E} (hr : Multiset.Rel r (x ::ₘ s) t)
    (hxy : r x y) (ht : t = y ::ₘ t') : Multiset.Rel r s t' := by
  subst ht
  obtain ⟨y2, u, hxy2, hsu, htu⟩ := Multiset.rel_cons_left.mp hr
  rcases Multiset.cons_eq_cons.mp htu with ⟨heq, hteq⟩ | ⟨hne, cs, ht2, hu⟩
  · rw [hteq]
    exact hsu
  · rw [hu] at hsu
    obtain ⟨x2, s2, hx2y, hs2, hs⟩ := Multiset.rel_cons_right.mp hsu
    rw [hs, ht2]
    exact Multiset.Rel.cons
      (htrans x2 y y2 hx2y (htrans y x y2 (hsym x y hxy) hxy2)) hs2

theorem greedyPass_residue_nil {f : E → E → Bool}
    (hsym : ∀ x y, f x y = true → f y x = true)
    (htrans : ∀ x y z, f x y = true → f y z = true → f x z = true) :
    ∀ (outer : List E) (pool : List (E × Bool)),
      Multiset.Rel (fun x y => f x y = true) (↑outer) (unclaimed pool) →
      (greedyPass f outer pool).1 = []
  | [], _, _ => rfl
  | x :: xs, pool, hrel => by
    rw [show ((x :: xs : List E) : Multiset E) = x ::ₘ (↑xs : Multiset E) from rfl]
      at hrel
    cases hcf : claimFirst (fun y => f x y) pool with
    | none =>
      exfalso
      obtain ⟨y, t', hxy, hxs, ht⟩ := Multiset.rel_cons_left.mp hrel
      have hy : y ∈ unclaimed pool := by
        rw [ht]
        exact Multiset.mem_cons_self y t'
      have := claimFirst_none_forall _ pool hcf y hy
      rw [this] at hxy
      exact Bool.noConfusion hxy
    | some pool' =>
      obtain ⟨y1, hy1, hun⟩ := claimFirst_some_unclaimed _ pool pool' hcf
      have hres : Multiset.Rel (fun x y => f x y = true) (↑xs) (unclaimed pool') :=
        rel_cons_of_cons hsym htrans hrel hy1 hun
      simp only [greedyPass, hcf]
      exact greedyPass_residue_nil hsym htrans xs pool' hres

theorem unclaimed_fresh : ∀ (b : List E),
    unclaimed (b.zip (List.replicate b.length false)) = (↑b : Multiset E)
  | [] => rfl
  | x :: rest => by
    show unclaimed ((x, false) :: rest.zip (List.replicate rest.length false)) = _
    rw [unclaimed_cons_false, unclaimed_fresh rest]
    rfl

theorem rel_of_forall₂ {r : E → E → Prop} {l1 l2 : List E}
    (h : List.Forall₂ r l1 l2) : Multiset.Rel r (↑l1) (↑l2) := by
  induction h with
  | nil => exact Multiset.Rel.zero
  | cons h1 _ ih =>
    rw [← Multiset.cons_coe, ← Multiset.cons_coe]
    exact Multiset.Rel.cons h1 ih

end GreedyMatching

/-- C4: for every sequence `a` and every reordering of it whose elements
match `b` under deep-equality (so `a` and `b` are equal as multisets under
deep-equality, duplicates matched by multiplicity), `SlicesMatch(h, a, b)`
passes: the greedy first-unclaimed matching leaves both residues empty. -/
theorem slicesMatch_perm_pass (a b : List GoVal)
    (hmulti : ∃ c, a.Perm c ∧ List.Forall₂ (fun x y => deepEqual x y = true) c b) :
    SlicesMatch deepEqual a b = .ok .pass := by
  obtain ⟨c, hp, hf⟩ := hmulti
  have hlen : a.length = b.length := hp.length_eq.trans hf.length_eq
  have hrel : Multiset.Rel (fun x y => deepEqual x y = true) (↑a) (↑b) := by
    rw [Multiset.coe_eq_coe.mpr hp]
    exact rel_of_forall₂ hf
  have h1 : (greedyPass (fun x y => deepEqual x y) a
      (b.zip (List.replicate a.length false))).1 = [] := by
    refine @greedyPass_residue_nil GoVal (fun x y => deepEqual x y)
      (fun x y h => deepEqual_true_symm h)
      (fun x y z hxy hyz => deepEqual_true_trans hxy hyz) a _ ?_
    rw [hlen, unclaimed_fresh]
    exact hrel
  have h2 : (greedyPass (fun x y => deepEqual y x) b
      (a.zip (List.replicate a.length false))).1 = [] := by
    refine @greedyPass_residue_nil GoVal (fun x y => deepEqual y x)
      (fun x y h => deepEqual_true_symm h)
      (fun x y z hxy hyz => deepEqual_true_trans hyz hxy) b _ ?_
    rw [unclaimed_fresh]
    exact Multiset.rel_flip.mpr hrel
  rw [SlicesMatch, SlicesMatchWith, if_neg (not_not_intro hlen),
    nonMatchingSlices_spec deepEqual a b hlen, except_bind_ok, h1, h2]
  simp

theorem slicesMatch_perm_pass_witness :
    (∃ c, List.Perm [GoVal.vint 1, GoVal.vint 2, GoVal.vint 2] c ∧
        List.Forall₂ (fun x y => deepEqual x y = true) c
          [GoVal.vint 2, GoVal.vint 1, GoVal.vint 2]) ∧
    SlicesMatch deepEqual [GoVal.vint 1, GoVal.vint 2, GoVal.vint 2]
      [GoVal.vint 2, GoVal.vint 1, GoVal.vint 2] = .ok .pass := by
  have hperm : List.Perm [GoVal.vint 1, GoVal.vint 2, GoVal.vint 2]
      [GoVal.vint 2, GoVal.vint 1, GoVal.vint 2] :=
    List.Perm.swap (GoVal.vint 2) (GoVal.vint 1) [GoVal.vint 2]
  have hf : List.Forall₂ (fun x y => deepEqual x y = true)
      [GoVal.vint 2, GoVal.vint 1, GoVal.vint 2]
      [GoVal.vint 2, GoVal.vint 1, GoVal.vint 2] :=
    List.Forall₂.cons rfl (List.Forall₂.cons rfl
      (List.Forall₂.cons rfl List.Forall₂.nil))
  exact ⟨⟨_, hperm, hf⟩,
    slicesMatch_perm_pass _ _ ⟨_, hperm, hf⟩⟩

end Assertions
